import Mathlib

/-!
Verification of the Voice-AI-Pipeline backend against its natural-language
specification.  The Python sources under `backend/app/` are shallowly embedded
as executable Lean definitions:

* `backend/app/utils/audio.py`            → `VoiceAI.AudioBuffer`
* `backend/app/llm/openai_client.py`      → `VoiceAI.SS` (`stream_sentences`)
* `backend/app/stt/deepgram.py`           → `VoiceAI.reconnectRun`
* `backend/app/orchestration/turn_controller.py` → `VoiceAI.TC` and friends

Modules of the repository that the controller imports but whose sources are
not available (`state_machine.py`, `transcript_buffer.py`, `silence_timer.py`,
`conversation_history.py`, `tts/elevenlabs.py`) are modelled from the
specification; every such definition carries a doc comment starting with
`Modelled from the spec:`.  Bytes are modelled as `Nat`, floats as `Rat`,
wall-clock timestamps are dropped (durations are reported as `0`), and the
cooperative async scheduler is modelled by explicit event schedules
(cancellation times given as step indices).
-/

namespace VoiceAI

/-! ## Python string helpers

Python's `str.strip` / `str.lstrip` and the `\s` class of the `re` module
(ASCII fragment) strip/match the characters space, tab, newline, carriage
return, vertical tab and form feed. -/

/-- ASCII whitespace as recognised by Python's `str.strip` and `re`'s `\s`. -/
def pySpace (c : Char) : Bool :=
  c = ' ' || c = '\t' || c = '\n' || c = '\x0d' || c = '\x0b' || c = '\x0c'

/-- Python `str.lstrip()` on a character list. -/
def pyLstrip (cs : List Char) : List Char :=
  cs.dropWhile pySpace

/-- Python `str.rstrip()` on a character list. -/
def pyRstrip (cs : List Char) : List Char :=
  (cs.reverse.dropWhile pySpace).reverse

/-- Python `str.strip()` on a character list. -/
def pyStrip (cs : List Char) : List Char :=
  pyLstrip (pyRstrip cs)

/-! ## `backend/app/utils/audio.py` — `AudioBuffer`

The byte ring holding recent user audio.  `max_size` is
`max_duration_seconds * sample_rate * 2` bytes (16-bit samples); `add`
extends the buffer and drops the oldest bytes on overflow. -/

/-- State of `AudioBuffer` (`audio.py`, lines 40-68).  Bytes are `Nat`. -/
structure AudioBuffer where
  maxSize : Nat
  buffer : List Nat
  totalBytesReceived : Nat
  deriving Repr, DecidableEq

/-- `AudioBuffer.__init__(max_duration_seconds=30, sample_rate=16000)`. -/
def AudioBuffer.init (maxDurationSeconds : Nat := 30) (sampleRate : Nat := 16000) :
    AudioBuffer :=
  { maxSize := maxDurationSeconds * sampleRate * 2
    buffer := []
    totalBytesReceived := 0 }

/-- `AudioBuffer.add`: extend, then drop `overflow` oldest bytes if over the
cap (`audio.py`, lines 52-68). -/
def AudioBuffer.add (b : AudioBuffer) (chunk : List Nat) : AudioBuffer :=
  let buf := b.buffer ++ chunk
  let tot := b.totalBytesReceived + chunk.length
  if buf.length > b.maxSize then
    { b with buffer := buf.drop (buf.length - b.maxSize), totalBytesReceived := tot }
  else
    { b with buffer := buf, totalBytesReceived := tot }

/-- `AudioBuffer.clear` (`audio.py`, lines 79-82). -/
def AudioBuffer.clear (b : AudioBuffer) : AudioBuffer :=
  { b with buffer := [] }

/-- `AudioBuffer.size_bytes` (`audio.py`, lines 84-86). -/
def AudioBuffer.sizeBytes (b : AudioBuffer) : Nat :=
  b.buffer.length

/-- The most recent `m` elements of a list (all of it when it is shorter). -/
def lastN (m : Nat) (l : List Nat) : List Nat :=
  l.drop (l.length - m)

theorem lastN_length (m : Nat) (l : List Nat) :
    (lastN m l).length = l.length - (l.length - m) := by
  simp [lastN]

theorem lastN_length_le (m : Nat) (l : List Nat) : (lastN m l).length ≤ m := by
  rw [lastN_length]
  omega

theorem lastN_of_le (m : Nat) (l : List Nat) (h : l.length ≤ m) : lastN m l = l := by
  simp [lastN, Nat.sub_eq_zero_of_le h]

/-- Truncating to the last `m` ignores any prefix when the right part is
already at least `m` long. -/
theorem lastN_append_left (m : Nat) (p q : List Nat) (h : m ≤ q.length) :
    lastN m (p ++ q) = lastN m q := by
  unfold lastN
  have hlen : (p ++ q).length - m = p.length + (q.length - m) := by
    simp
    omega
  rw [hlen, List.drop_append]

/-- Re-truncating after an append is the same as truncating the full history:
`lastN m (lastN m a ++ c) = lastN m (a ++ c)`. -/
theorem lastN_append_lastN (m : Nat) (a c : List Nat) :
    lastN m (lastN m a ++ c) = lastN m (a ++ c) := by
  by_cases h : a.length ≤ m
  · rw [lastN_of_le m a h]
  · push_neg at h
    have hsplit : a.take (a.length - m) ++ lastN m a = a := by
      simp [lastN, List.take_append_drop]
    have hq : m ≤ (lastN m a ++ c).length := by
      rw [List.length_append, lastN_length]
      omega
    calc lastN m (lastN m a ++ c)
        = lastN m (a.take (a.length - m) ++ (lastN m a ++ c)) :=
          (lastN_append_left m _ _ hq).symm
      _ = lastN m (a ++ c) := by rw [← List.append_assoc, hsplit]

/-- After `add`, the buffer is exactly the most recent `maxSize` bytes of the
extended history. -/
theorem AudioBuffer.add_buffer (b : AudioBuffer) (chunk : List Nat) :
    (b.add chunk).buffer = lastN b.maxSize (b.buffer ++ chunk) := by
  simp only [AudioBuffer.add]
  split
  · simp [lastN]
  · rename_i h
    simp only
    rw [lastN_of_le]
    exact Nat.le_of_not_lt h

/-- `add` never changes `maxSize`. -/
theorem AudioBuffer.add_maxSize (b : AudioBuffer) (chunk : List Nat) :
    (b.add chunk).maxSize = b.maxSize := by
  simp only [AudioBuffer.add]
  split <;> rfl

/-- Representation invariant of a fold of `add`s over the empty initial
buffer: the buffer always holds exactly the most recent `maxSize` bytes of
everything received. -/
theorem AudioBuffer.foldl_add_rep (dur sr : Nat) (chunks : List (List Nat)) :
    (chunks.foldl AudioBuffer.add (AudioBuffer.init dur sr)).buffer
      = lastN (dur * sr * 2) chunks.flatten ∧
    (chunks.foldl AudioBuffer.add (AudioBuffer.init dur sr)).maxSize = dur * sr * 2 := by
  suffices h : ∀ (l : List (List Nat)) (b : AudioBuffer) (acc : List Nat),
      b.buffer = lastN b.maxSize acc →
      (l.foldl AudioBuffer.add b).buffer = lastN b.maxSize (acc ++ l.flatten) ∧
      (l.foldl AudioBuffer.add b).maxSize = b.maxSize by
    have h0 : (AudioBuffer.init dur sr).buffer
        = lastN (AudioBuffer.init dur sr).maxSize [] := by
      simp [AudioBuffer.init, lastN]
    have := h chunks (AudioBuffer.init dur sr) [] h0
    simpa [AudioBuffer.init] using this
  intro l
  induction l with
  | nil =>
    intro b acc hrep
    constructor
    · simpa using hrep
    · rfl
  | cons c rest ih =>
    intro b acc hrep
    have hstep : (b.add c).buffer = lastN b.maxSize (acc ++ c) := by
      rw [AudioBuffer.add_buffer b c, hrep, lastN_append_lastN]
    have hms := AudioBuffer.add_maxSize b c
    have := ih (b.add c) (acc ++ c) (by rw [hstep, hms])
    rw [hms] at this
    simpa [List.append_assoc] using this

/-- C9: Over any sequence of `add` calls on a fresh `AudioBuffer`, the buffer
size after each `add` never exceeds `max_size = max_duration_seconds *
sample_rate * 2` bytes, and on overflow the oldest bytes are discarded so the
buffer holds exactly the most recent `max_size` bytes of all audio received. -/
theorem C9_audio_buffer_never_exceeds_max (maxDur sr : Nat) (chunks : List (List Nat)) :
    (AudioBuffer.init maxDur sr).maxSize = maxDur * sr * 2 ∧
    (∀ n : Nat,
      ((chunks.take n).foldl AudioBuffer.add (AudioBuffer.init maxDur sr)).sizeBytes
        ≤ maxDur * sr * 2) ∧
    (chunks.foldl AudioBuffer.add (AudioBuffer.init maxDur sr)).buffer
      = lastN (maxDur * sr * 2) chunks.flatten := by
  refine ⟨rfl, ?_, (AudioBuffer.foldl_add_rep maxDur sr chunks).1⟩
  intro n
  have h := (AudioBuffer.foldl_add_rep maxDur sr (chunks.take n)).1
  rw [AudioBuffer.sizeBytes, h]
  exact lastN_length_le _ _

/-! ## `backend/app/llm/openai_client.py` — `OpenAIClient.stream_sentences`

The SSE consumption loop (lines 163-287).  Each provider line is modelled by
its parse result: `token s` for a JSON data line whose
`choices[0].delta.content` is `s` (the empty string when the field is empty
or absent), `done` for the literal `[DONE]` terminator, and `noise` for blank
lines, non-`data:` lines and non-JSON data lines (all skipped).  Cancellation
is modelled by the step index `cancelAt` from which `cancel_event.is_set()`
returns true; the check sits at the top of the per-line loop body, exactly as
in the source.  `\s` of `SENTENCE_END_PATTERN` and `str.strip` are modelled
at the ASCII fragment. -/

/-- The characters of `SENTENCE_END_PATTERN = re.compile(r'[.!?](?:\s|$)')`. -/
def isPunct (c : Char) : Bool :=
  c = '.' || c = '!' || c = '?'

/-- Parse result of one provider SSE line. -/
inductive SSEItem where
  | token (s : String)
  | done
  | noise
  deriving Repr, DecidableEq

/-- `SENTENCE_END_PATTERN.search(buffer)`: the `end()` position of the
leftmost occurrence of `.`, `!` or `?` followed by whitespace (consumed) or
end-of-buffer (zero width), `none` when there is no match. -/
def findEnd : List Char → Option Nat
  | [] => none
  | [c] => if isPunct c then some 1 else none
  | c :: d :: rest =>
      if isPunct c && pySpace d then some 2
      else
        match findEnd (d :: rest) with
        | some n => some (n + 1)
        | none => none

/-- Appending one content token to `sentence_buffer` and running the single
boundary check of `stream_sentences` (lines 249-268): on a match, the prefix
up to `match.end()` is stripped and returned for yielding (skipped when empty
after stripping), and the remainder is `lstrip`ped back into the buffer. -/
def processToken (buf : List Char) (content : String) : List Char × Option String :=
  let b := buf ++ content.data
  match findEnd b with
  | some e =>
      let st := pyStrip (b.take e)
      (pyLstrip (b.drop e), if st.isEmpty then none else some st.asString)
  | none => (b, none)

/-- The final-residue yield after the loop (lines 274-278): the stripped
buffer as `(residue, true)` when non-empty, stamped with the step index at
which the loop ended. -/
def ssResidue (buf : List Char) (i : Nat) : List (Nat × String × Bool) :=
  let r := pyStrip buf
  if r.isEmpty then [] else [(i, r.asString, true)]

/-- Uncancelled run of `stream_sentences`, instrumented with the line index
at which each pair is yielded (the residue is stamped with the index at which
the loop ended: the `[DONE]` line's index, or the input length when the
provider stream simply ends). -/
def ssRunT : List Char → Nat → List SSEItem → List (Nat × String × Bool)
  | buf, i, [] => ssResidue buf i
  | buf, i, SSEItem.done :: _ => ssResidue buf i
  | buf, i, SSEItem.noise :: rest => ssRunT buf (i + 1) rest
  | buf, i, SSEItem.token s :: rest =>
      if s.isEmpty then ssRunT buf (i + 1) rest
      else
        match processToken buf s with
        | (b2, some sent) => (i, sent, false) :: ssRunT b2 (i + 1) rest
        | (b2, none) => ssRunT b2 (i + 1) rest

/-- `stream_sentences` with the cancellation event set from step `cancelAt`
on: each per-line check (`if cancel_event.is_set(): return`, lines 228-230)
returns immediately, dropping the residue; the residue yield after a natural
end of the stream performs no check, exactly as in the source. -/
def ssRunC : List Char → Nat → Nat → List SSEItem → List (String × Bool)
  | buf, _, _, [] => (ssResidue buf 0).map (fun p => p.2)
  | buf, i, cancelAt, item :: rest =>
      if cancelAt ≤ i then []
      else
        match item with
        | SSEItem.done => (ssResidue buf 0).map (fun p => p.2)
        | SSEItem.noise => ssRunC buf (i + 1) cancelAt rest
        | SSEItem.token s =>
            if s.isEmpty then ssRunC buf (i + 1) cancelAt rest
            else
              match processToken buf s with
              | (b2, some sent) => (sent, false) :: ssRunC b2 (i + 1) cancelAt rest
              | (b2, none) => ssRunC b2 (i + 1) cancelAt rest

/-- The observable yield sequence of an uncancelled `stream_sentences` run. -/
def streamSentences (items : List SSEItem) : List (String × Bool) :=
  (ssRunT [] 0 items).map (fun p => p.2)

/-- Number of per-line cancellation checks the loop performs on this input
(every line up to and including the `[DONE]` terminator). -/
def checksCount : List SSEItem → Nat
  | [] => 0
  | SSEItem.done :: _ => 1
  | _ :: rest => checksCount rest + 1

theorem findEnd_bounds : ∀ (cs : List Char) (e : Nat), findEnd cs = some e →
    1 ≤ e ∧ e ≤ cs.length := by
  intro cs
  induction cs with
  | nil => intro e h; simp [findEnd] at h
  | cons c tl ih =>
    intro e h
    cases tl with
    | nil =>
      simp only [findEnd] at h
      split at h
      · cases h; simp
      · cases h
    | cons d rest =>
      simp only [findEnd] at h
      split at h
      · cases h; simp
      · revert h
        cases hfe : findEnd (d :: rest) with
        | none => intro h; cases h
        | some n =>
          intro h
          cases h
          have hb := ih n hfe
          simp only [List.length_cons] at hb ⊢
          omega

/-- Shape of the matched prefix: `cs.take e` ends either in a punctuation
character (end-of-buffer match) or in punctuation followed by one whitespace
character (consumed by `\s`). -/
theorem findEnd_take : ∀ (cs : List Char) (e : Nat), findEnd cs = some e →
    (∃ l c, cs.take e = l ++ [c] ∧ isPunct c = true) ∨
    (∃ l c d, cs.take e = l ++ [c, d] ∧ isPunct c = true ∧ pySpace d = true) := by
  intro cs
  induction cs with
  | nil => intro e h; simp [findEnd] at h
  | cons c tl ih =>
    intro e h
    cases tl with
    | nil =>
      simp only [findEnd] at h
      split at h
      · cases h
        left
        rename_i hc
        exact ⟨[], c, by simp, hc⟩
      · cases h
    | cons d rest =>
      simp only [findEnd] at h
      split at h
      · cases h
        right
        rename_i hcd
        simp only [Bool.and_eq_true] at hcd
        exact ⟨[], c, d, by simp, hcd.1, hcd.2⟩
      · revert h
        cases hfe : findEnd (d :: rest) with
        | none => intro h; cases h
        | some n =>
          intro h
          cases h
          rcases ih n hfe with ⟨l, c', htake, hc'⟩ | ⟨l, c', d', htake, hc', hd'⟩
          · left
            exact ⟨c :: l, c', by simp [htake], hc'⟩
          · right
            exact ⟨c :: l, c', d', by simp [htake], hc', hd'⟩

theorem punct_not_space (c : Char) (h : isPunct c = true) : pySpace c = false := by
  simp only [isPunct, Bool.or_eq_true, decide_eq_true_eq] at h
  rcases h with (h | h) | h <;> subst h <;> rfl

theorem getLast?_dropWhile_ne_nil (p : Char → Bool) (l : List Char)
    (h : l.dropWhile p ≠ []) : (l.dropWhile p).getLast? = l.getLast? := by
  obtain ⟨t, ht⟩ := List.dropWhile_suffix (l := l) p
  conv_rhs => rw [← ht]
  exact (List.getLast?_append_of_ne_nil _ h).symm

/-- Stripping a list that ends in a non-space character keeps that character
last and leaves the result non-empty. -/
theorem pyStrip_concat_punct (l : List Char) (c : Char) (hc : isPunct c = true) :
    pyStrip (l ++ [c]) ≠ [] ∧ (pyStrip (l ++ [c])).getLast? = some c := by
  have hcs : pySpace c = false := punct_not_space c hc
  have h1 : pyRstrip (l ++ [c]) = l ++ [c] := by
    unfold pyRstrip
    rw [List.reverse_append]
    simp only [List.reverse_cons, List.reverse_nil, List.nil_append, List.singleton_append,
      List.dropWhile_cons, hcs]
    simp
  have h2 : pyLstrip (l ++ [c]) ≠ [] := by
    unfold pyLstrip
    rw [Ne, List.dropWhile_eq_nil_iff]
    intro hall
    have := hall c (by simp)
    rw [hcs] at this
    cases this
  have h3 : (pyLstrip (l ++ [c])).getLast? = some c := by
    unfold pyLstrip
    rw [getLast?_dropWhile_ne_nil _ _ h2, List.getLast?_concat]
  unfold pyStrip
  rw [h1]
  exact ⟨h2, h3⟩

/-- Stripping a list ending in punctuation-then-whitespace drops the trailing
whitespace first. -/
theorem pyStrip_concat_punct_space (l : List Char) (c d : Char)
    (hc : isPunct c = true) (hd : pySpace d = true) :
    pyStrip (l ++ [c, d]) = pyStrip (l ++ [c]) := by
  have hcs : pySpace c = false := punct_not_space c hc
  have h1 : pyRstrip (l ++ [c, d]) = l ++ [c] := by
    unfold pyRstrip
    rw [List.reverse_append]
    simp only [List.reverse_cons, List.reverse_nil, List.nil_append, List.cons_append,
      List.dropWhile_cons, hd, if_true, hcs]
    simp
  have h2 : pyRstrip (l ++ [c]) = l ++ [c] := by
    unfold pyRstrip
    rw [List.reverse_append]
    simp only [List.reverse_cons, List.reverse_nil, List.nil_append, List.singleton_append,
      List.dropWhile_cons, hcs]
    simp
  unfold pyStrip
  rw [h1, h2]

/-- Every mid-stream sentence produced by the boundary check is non-empty and
ends with `.`, `!` or `?`. -/
theorem processToken_sent (buf : List Char) (s : String) (b2 : List Char) (sent : String)
    (h : processToken buf s = (b2, some sent)) :
    sent ≠ "" ∧ ∃ c, sent.data.getLast? = some c ∧ isPunct c = true := by
  simp only [processToken] at h
  split at h
  · rename_i e hfe
    split at h
    · simp at h
    · rename_i hne
      have hsent : sent = (pyStrip ((buf ++ s.data).take e)).asString := by
        have := congrArg Prod.snd h
        simp only [Option.some.injEq] at this
        exact this.symm
      have hstrip :
          (pyStrip ((buf ++ s.data).take e)) ≠ [] ∧
          ∃ c, (pyStrip ((buf ++ s.data).take e)).getLast? = some c ∧ isPunct c = true := by
        rcases findEnd_take _ e hfe with ⟨l, c, htake, hc⟩ | ⟨l, c, d, htake, hc, hd⟩
        · rw [htake]
          have hpc := pyStrip_concat_punct l c hc
          exact ⟨hpc.1, c, hpc.2, hc⟩
        · rw [htake, pyStrip_concat_punct_space l c d hc hd]
          have hpc := pyStrip_concat_punct l c hc
          exact ⟨hpc.1, c, hpc.2, hc⟩
      have hdata : sent.data = pyStrip ((buf ++ s.data).take e) := by
        rw [hsent]
        rfl
      constructor
      · intro hemp
        apply hstrip.1
        rw [← hdata, hemp]
      · obtain ⟨c, hlast, hc⟩ := hstrip.2
        exact ⟨c, by rw [hdata]; exact hlast, hc⟩
  · simp at h

/-- The mid-stream yields of a run (loop body only, no residue). -/
def ssMids : List Char → Nat → List SSEItem → List (Nat × String × Bool)
  | _, _, [] => []
  | _, _, SSEItem.done :: _ => []
  | buf, i, SSEItem.noise :: rest => ssMids buf (i + 1) rest
  | buf, i, SSEItem.token s :: rest =>
      if s.isEmpty then ssMids buf (i + 1) rest
      else
        match processToken buf s with
        | (b2, some sent) => (i, sent, false) :: ssMids b2 (i + 1) rest
        | (b2, none) => ssMids b2 (i + 1) rest

/-- The value of `sentence_buffer` when the loop ends. -/
def finalBuf : List Char → List SSEItem → List Char
  | buf, [] => buf
  | buf, SSEItem.done :: _ => buf
  | buf, SSEItem.noise :: rest => finalBuf buf rest
  | buf, SSEItem.token s :: rest =>
      if s.isEmpty then finalBuf buf rest
      else finalBuf (processToken buf s).1 rest

/-- The step index at which the loop ends. -/
def finalTime : Nat → List SSEItem → Nat
  | i, [] => i
  | i, SSEItem.done :: _ => i
  | i, SSEItem.noise :: rest => finalTime (i + 1) rest
  | i, SSEItem.token _ :: rest => finalTime (i + 1) rest

/-- A run is its mid-stream yields followed by the residue yield. -/
theorem ssRunT_decomp : ∀ (items : List SSEItem) (buf : List Char) (i : Nat),
    ssRunT buf i items
      = ssMids buf i items ++ ssResidue (finalBuf buf items) (finalTime i items) := by
  intro items
  induction items with
  | nil => intro buf i; simp [ssRunT, ssMids, finalBuf, finalTime]
  | cons item rest ih =>
    intro buf i
    cases item with
    | done => simp [ssRunT, ssMids, finalBuf, finalTime]
    | noise => simp only [ssRunT, ssMids, finalBuf, finalTime]; exact ih buf (i + 1)
    | token s =>
      simp only [ssRunT, ssMids, finalBuf, finalTime]
      by_cases hs : s.isEmpty
      · simp only [hs, if_true]
        exact ih buf (i + 1)
      · simp only [hs, if_false, Bool.false_eq_true]
        cases hp : processToken buf s with
        | mk b2 osent =>
          cases osent with
          | some sent => simp only [List.cons_append]; rw [ih b2 (i + 1)]
          | none => exact ih b2 (i + 1)

theorem finalTime_ge : ∀ (items : List SSEItem) (i : Nat), i ≤ finalTime i items := by
  intro items
  induction items with
  | nil => intro i; simp [finalTime]
  | cons item rest ih =>
    intro i
    cases item with
    | done => simp [finalTime]
    | noise =>
      simp only [finalTime]
      exact Nat.le_trans (Nat.le_succ i) (ih (i + 1))
    | token s =>
      simp only [finalTime]
      exact Nat.le_trans (Nat.le_succ i) (ih (i + 1))

/-- Every yield of a run is stamped no earlier than the starting index. -/
theorem ssRunT_stamps_ge : ∀ (items : List SSEItem) (buf : List Char) (i : Nat)
    (p : Nat × String × Bool), p ∈ ssRunT buf i items → i ≤ p.1 := by
  intro items
  induction items with
  | nil =>
    intro buf i p hp
    simp only [ssRunT, ssResidue] at hp
    split at hp
    · cases hp
    · rw [List.mem_singleton] at hp
      rw [hp]
  | cons item rest ih =>
    intro buf i p hp
    cases item with
    | done =>
      simp only [ssRunT, ssResidue] at hp
      split at hp
      · cases hp
      · rw [List.mem_singleton] at hp
        rw [hp]
    | noise =>
      simp only [ssRunT] at hp
      exact Nat.le_trans (Nat.le_succ i) (ih buf (i + 1) p hp)
    | token s =>
      simp only [ssRunT] at hp
      split at hp
      · exact Nat.le_trans (Nat.le_succ i) (ih buf (i + 1) p hp)
      · revert hp
        cases hpt : processToken buf s with
        | mk b2 osent =>
          cases osent with
          | some sent =>
            intro hp
            rw [List.mem_cons] at hp
            rcases hp with h | h
            · rw [h]
            · exact Nat.le_trans (Nat.le_succ i) (ih b2 (i + 1) p h)
          | none =>
            intro hp
            exact Nat.le_trans (Nat.le_succ i) (ih b2 (i + 1) p hp)

/-- Every mid-stream yield carries `is_final = false` and a non-empty
sentence ending in `.`, `!` or `?`. -/
theorem ssMids_shape : ∀ (items : List SSEItem) (buf : List Char) (i : Nat)
    (p : Nat × String × Bool), p ∈ ssMids buf i items →
    p.2.2 = false ∧ p.2.1 ≠ "" ∧ ∃ c, p.2.1.data.getLast? = some c ∧ isPunct c = true := by
  intro items
  induction items with
  | nil => intro buf i p hp; cases hp
  | cons item rest ih =>
    intro buf i p hp
    cases item with
    | done => cases hp
    | noise =>
      simp only [ssMids] at hp
      exact ih buf (i + 1) p hp
    | token s =>
      simp only [ssMids] at hp
      split at hp
      · exact ih buf (i + 1) p hp
      · revert hp
        cases hpt : processToken buf s with
        | mk b2 osent =>
          cases osent with
          | some sent =>
            intro hp
            rw [List.mem_cons] at hp
            rcases hp with h | h
            · rw [h]
              have hps := processToken_sent buf s b2 sent hpt
              exact ⟨rfl, hps.1, hps.2⟩
            · exact ih b2 (i + 1) p h
          | none =>
            intro hp
            exact ih b2 (i + 1) p hp

/-- When no line ever carries content, the buffer stays empty and nothing is
yielded mid-stream. -/
theorem ssMids_no_content : ∀ (items : List SSEItem) (buf : List Char) (i : Nat),
    (∀ s, SSEItem.token s ∈ items → s = "") →
    ssMids buf i items = [] ∧ finalBuf buf items = buf := by
  intro items
  induction items with
  | nil => intro buf i _; exact ⟨rfl, rfl⟩
  | cons item rest ih =>
    intro buf i hnc
    cases item with
    | done => exact ⟨rfl, rfl⟩
    | noise =>
      simp only [ssMids, finalBuf]
      exact ih buf (i + 1) (fun s hs => hnc s (List.mem_cons_of_mem _ hs))
    | token s =>
      have hs : s = "" := hnc s (List.mem_cons_self _ _)
      subst hs
      simp only [ssMids, finalBuf, String.isEmpty, if_true]
      have hrec := ih buf (i + 1) (fun s hs => hnc s (List.mem_cons_of_mem _ hs))
      simpa using hrec

/-- When cancellation is already set at the starting index, no stamped yield
of the uncancelled run passes the `stamp < cancelAt` filter. -/
theorem ssRunT_filter_lt_nil (items : List SSEItem) (buf : List Char) (i cancelAt : Nat)
    (h : cancelAt ≤ i) :
    (ssRunT buf i items).filter (fun p => decide (p.1 < cancelAt)) = [] := by
  rw [List.filter_eq_nil_iff]
  intro p hp
  have hge := ssRunT_stamps_ge items buf i p hp
  simp only [decide_eq_true_eq]
  omega

/-- Cancellation observed at a chunk boundary truncates the yield stream at
the cancellation time: the cancelled run is exactly the uncancelled run
restricted to yields stamped before `cancelAt`. -/
theorem ssRunC_filter : ∀ (items : List SSEItem) (buf : List Char) (i cancelAt : Nat),
    i ≤ cancelAt → cancelAt < i + checksCount items →
    ssRunC buf i cancelAt items
      = ((ssRunT buf i items).filter (fun p => decide (p.1 < cancelAt))).map
          (fun p => p.2) := by
  intro items
  induction items with
  | nil =>
    intro buf i cancelAt h1 h2
    simp only [checksCount, Nat.add_zero] at h2
    omega
  | cons item rest ih =>
    intro buf i cancelAt h1 h2
    cases item with
    | done =>
      have hci : cancelAt = i := by
        simp only [checksCount] at h2
        omega
      subst hci
      simp only [ssRunC, le_refl, if_true]
      simp only [ssRunT, ssResidue]
      split
      · rfl
      · simp
    | noise =>
      by_cases hc : cancelAt ≤ i
      · have hci : cancelAt = i := Nat.le_antisymm hc h1
        subst hci
        simp only [ssRunC, le_refl, if_true, ssRunT]
        rw [ssRunT_filter_lt_nil rest buf (cancelAt + 1) cancelAt (by omega)]
        rfl
      · simp only [ssRunC, if_neg hc, ssRunT]
        refine ih buf (i + 1) cancelAt (by omega) ?_
        simp only [checksCount] at h2
        omega
    | token s =>
      by_cases hc : cancelAt ≤ i
      · simp only [ssRunC, if_pos hc]
        rw [ssRunT_filter_lt_nil (SSEItem.token s :: rest) buf i cancelAt hc]
        rfl
      · have hbound : cancelAt < (i + 1) + checksCount rest := by
          simp only [checksCount] at h2
          omega
        have hstep : i + 1 ≤ cancelAt := by omega
        simp only [ssRunC, if_neg hc, ssRunT]
        by_cases hs : s.isEmpty
        · simp only [hs, if_true]
          exact ih buf (i + 1) cancelAt hstep hbound
        · simp only [hs, if_false, Bool.false_eq_true]
          cases hpt : processToken buf s with
          | mk b2 osent =>
            cases osent with
            | some sent =>
              have hdec : decide (i < cancelAt) = true := by
                simp only [decide_eq_true_eq]
                omega
              simp only [List.filter_cons, hdec, if_true, List.map_cons]
              rw [ih b2 (i + 1) cancelAt hstep hbound]
            | none =>
              exact ih b2 (i + 1) cancelAt hstep hbound

/-- C5 is violated in the end-of-stream window: with a single content line
`"Hi"` and the cancellation event set right after that line's check (index 1,
i.e. while the generator awaits the next provider chunk), the provider stream
ends without `[DONE]` and the buffered residue `("Hi", true)` is still
yielded, although the claim demands that nothing be yielded from time 1 on. -/
theorem C5_counterexample :
    ssRunC [] 0 1 [SSEItem.token "Hi"] = [("Hi", true)] ∧
    ((ssRunT [] 0 [SSEItem.token "Hi"]).filter
        (fun p => decide (p.1 < 1))).map (fun p => p.2) = [] ∧
    ssRunC [] 0 1 [SSEItem.token "Hi"]
      ≠ ((ssRunT [] 0 [SSEItem.token "Hi"]).filter
          (fun p => decide (p.1 < 1))).map (fun p => p.2) := by
  refine ⟨by decide, by decide, by decide⟩

/-- C5 (amended): whenever the cancellation event is set early enough to be
observed at one of the per-line chunk-boundary checks (`cancelAt <
checksCount items`), the generator returns there and the yielded pairs are
exactly the uncancelled run's yields stamped before the cancellation time —
in particular nothing is yielded at or after it.  (The only uncovered window
is a stream that terminates without `[DONE]` after cancellation was set but
before another chunk arrived; see the counterexample.) -/
theorem C5_cancellation_truncates (items : List SSEItem) (cancelAt : Nat)
    (h : cancelAt < checksCount items) :
    ssRunC [] 0 cancelAt items
      = ((ssRunT [] 0 items).filter (fun p => decide (p.1 < cancelAt))).map
          (fun p => p.2) :=
  ssRunC_filter items [] 0 cancelAt (Nat.zero_le _) (by simpa using h)

theorem C5_cancellation_truncates_witness :
    2 < checksCount [SSEItem.token "One went.", SSEItem.token " more", SSEItem.done] ∧
    ssRunC [] 0 2 [SSEItem.token "One went.", SSEItem.token " more", SSEItem.done]
      = ((ssRunT [] 0 [SSEItem.token "One went.", SSEItem.token " more",
            SSEItem.done]).filter (fun p => decide (p.1 < 2))).map (fun p => p.2) :=
  ⟨by decide, C5_cancellation_truncates _ 2 (by decide)⟩

/-- The claim-side reading of the C3 slicing rule: *whenever* the buffer
contains `.`, `!` or `?` followed by whitespace or end-of-buffer, the
completed prefix is sliced off and yielded as `(sentence, false)` — i.e. the
buffer is re-checked until no boundary remains.  Exhaustive slicing of one
buffer; fuel equals the buffer length, which each slice (of at least one
character) can never exhaust. -/
def sliceAllFuel : Nat → List Char → List Char × List String
  | 0, buf => (buf, [])
  | fuel + 1, buf =>
      match findEnd buf with
      | some e =>
          let st := pyStrip (buf.take e)
          let r := sliceAllFuel fuel (pyLstrip (buf.drop e))
          (r.1, if st.isEmpty then r.2 else st.asString :: r.2)
      | none => (buf, [])

/-- Exhaustive slicing of a buffer, per the claim's words. -/
def sliceAll (buf : List Char) : List Char × List String :=
  sliceAllFuel buf.length buf

/-- The stream behaviour the claim describes (refinement target): per content
token, slice off *every* completed sentence; at termination yield the
non-empty residue as `(residue, true)`; yield nothing when no content was
produced. -/
def streamSentencesSpecC3 : List Char → List SSEItem → List (String × Bool)
  | buf, [] => (ssResidue buf 0).map (fun p => p.2)
  | buf, SSEItem.done :: _ => (ssResidue buf 0).map (fun p => p.2)
  | buf, SSEItem.noise :: rest => streamSentencesSpecC3 buf rest
  | buf, SSEItem.token s :: rest =>
      if s.isEmpty then streamSentencesSpecC3 buf rest
      else
        (sliceAll (buf ++ s.data)).2.map (fun t => (t, false))
          ++ streamSentencesSpecC3 (sliceAll (buf ++ s.data)).1 rest

/-- C3 is violated when one content token carries two sentence boundaries:
on the single line `"One. Two."` the code slices the buffer only once per
token, so `"Two."` stays in the buffer and is later yielded as the *final*
residue `("Two.", true)`, while the claim requires it to be sliced off and
yielded as `("Two.", false)` (leaving no residue). -/
theorem C3_counterexample :
    streamSentences [SSEItem.token "One. Two."] = [("One.", false), ("Two.", true)] ∧
    streamSentencesSpecC3 [] [SSEItem.token "One. Two."]
      = [("One.", false), ("Two.", false)] ∧
    streamSentences [SSEItem.token "One. Two."]
      ≠ streamSentencesSpecC3 [] [SSEItem.token "One. Two."] := by
  refine ⟨by decide, by decide, by decide⟩

/-- C3 (amended): per content token the buffer is checked *once*; the prefix
up to the first boundary is stripped and yielded as `(sentence, false)` — so
every mid-stream yield is a non-empty sentence ending in `.`, `!` or `?`;
only the last yielded pair can carry `is_final = true`; after termination a
non-empty (stripped) residue is yielded as `(residue, true)` and is the last
pair; and if no content was ever produced nothing is yielded. -/
theorem C3_sentence_stream_shape (items : List SSEItem) :
    (∀ p ∈ streamSentences items, p.2 = false →
        p.1 ≠ "" ∧ ∃ c, p.1.data.getLast? = some c ∧ isPunct c = true) ∧
    (∀ p ∈ (streamSentences items).dropLast, p.2 = false) ∧
    ((∀ s, SSEItem.token s ∈ items → s = "") → streamSentences items = []) ∧
    (pyStrip (finalBuf [] items) ≠ [] →
        (streamSentences items).getLast?
          = some ((pyStrip (finalBuf [] items)).asString, true)) ∧
    (pyStrip (finalBuf [] items) = [] →
        ∀ p ∈ streamSentences items, p.2 = false) := by
  have hout : streamSentences items
      = (ssMids [] 0 items).map (fun p => p.2)
        ++ (ssResidue (finalBuf [] items) (finalTime 0 items)).map (fun p => p.2) := by
    unfold streamSentences
    rw [ssRunT_decomp, List.map_append]
  have hmid : ∀ p ∈ (ssMids [] 0 items).map
      (fun p : Nat × String × Bool => p.2), p.2 = false := by
    intro p hp
    rw [List.mem_map] at hp
    obtain ⟨q, hq, hpq⟩ := hp
    have := (ssMids_shape items [] 0 q hq).1
    rw [← hpq]
    exact this
  refine ⟨?_, ?_, ?_, ?_, ?_⟩
  · intro p hp hfalse
    rw [hout, List.mem_append] at hp
    rcases hp with hp | hp
    · rw [List.mem_map] at hp
      obtain ⟨q, hq, hpq⟩ := hp
      have hsh := ssMids_shape items [] 0 q hq
      rw [← hpq]
      exact ⟨hsh.2.1, hsh.2.2⟩
    · exfalso
      simp only [ssResidue] at hp
      split at hp
      · cases hp
      · simp only [List.map_cons, List.map_nil, List.mem_singleton] at hp
        rw [hp] at hfalse
        cases hfalse
  · intro p hp
    rw [hout] at hp
    by_cases hres : (pyStrip (finalBuf [] items)).isEmpty
    · have hnil : (ssResidue (finalBuf [] items) (finalTime 0 items)).map
          (fun p : Nat × String × Bool => p.2) = [] := by
        simp [ssResidue, hres]
      rw [hnil, List.append_nil] at hp
      exact hmid p (List.dropLast_subset _ hp)
    · have hone : (ssResidue (finalBuf [] items) (finalTime 0 items)).map
          (fun p : Nat × String × Bool => p.2)
          = [((pyStrip (finalBuf [] items)).asString, true)] := by
        simp [ssResidue, hres]
      rw [hone, List.dropLast_concat] at hp
      exact hmid p hp
  · intro hnc
    have hm := ssMids_no_content items [] 0 hnc
    rw [hout, hm.1, hm.2]
    simp [ssResidue, pyStrip, pyRstrip, pyLstrip]
  · intro hne
    have hres : ¬ (pyStrip (finalBuf [] items)).isEmpty := by
      rw [List.isEmpty_iff]
      exact hne
    have hone : (ssResidue (finalBuf [] items) (finalTime 0 items)).map
        (fun p : Nat × String × Bool => p.2)
        = [((pyStrip (finalBuf [] items)).asString, true)] := by
      simp [ssResidue, hres]
    rw [hout, hone, List.getLast?_concat]
  · intro hres0 p hp
    have hnil : (ssResidue (finalBuf [] items) (finalTime 0 items)).map
        (fun p : Nat × String × Bool => p.2) = [] := by
      simp [ssResidue, hres0]
    rw [hout, hnil, List.append_nil] at hp
    exact hmid p hp

theorem C3_sentence_stream_shape_witness :
    streamSentences [SSEItem.token "", SSEItem.noise, SSEItem.done] = [] :=
  (C3_sentence_stream_shape [SSEItem.token "", SSEItem.noise, SSEItem.done]).2.2.1
    (by intro s hs; simpa using hs)

/-! ## `backend/app/stt/deepgram.py` — reconnection back-off

`DeepgramClient._reconnect` (lines 270-293): when `_reconnect_attempts` has
reached `_max_reconnect_attempts` (5, set in `__init__`, lines 56-57) the
error callback is invoked and the recursion stops; otherwise the delay is
`2 ** _reconnect_attempts` seconds for a positive attempt counter and `0`
for the first attempt (line 284), the counter is incremented, the coroutine
sleeps and, with `connect()` failing and `is_closing` false, `_reconnect` is
scheduled again. -/

/-- `_max_reconnect_attempts` (deepgram.py, line 57). -/
def maxReconnectAttempts : Nat := 5

/-- `_reconnect` run to exhaustion with every `connect()` failing and
`is_closing = False`: the list of back-off delays slept (in seconds, in
order) and whether the error callback was reached on exhaustion. -/
def reconnectRun (attempts : Nat) : List Nat × Bool :=
  if h : attempts ≥ maxReconnectAttempts then ([], true)
  else
    let delay := if attempts > 0 then 2 ^ attempts else 0
    let r := reconnectRun (attempts + 1)
    (delay :: r.1, r.2)
termination_by maxReconnectAttempts - attempts
decreasing_by
  simp [maxReconnectAttempts] at h ⊢
  omega

/-- C6 (code evaluated at the failing input): starting from a fresh
connection (`_reconnect_attempts = 0`), the delays actually slept are
`0, 2, 4, 8, 16` seconds — not the `0, 1, 2, 4, 8` of the claim and of the
function's own docstring — over exactly 5 attempts, after which the error
callback is reached. -/
theorem C6_reconnect_backoff_schedule :
    (reconnectRun 0).1 = [0, 2, 4, 8, 16] ∧
    (reconnectRun 0).2 = true ∧
    (reconnectRun 0).1.length = maxReconnectAttempts ∧
    (reconnectRun 0).1 ≠ [0, 1, 2, 4, 8] := by
  have h1 : (reconnectRun 0).1 = [0, 2, 4, 8, 16] := by
    simp [reconnectRun, maxReconnectAttempts]
  have h2 : (reconnectRun 0).2 = true := by
    simp [reconnectRun, maxReconnectAttempts]
  refine ⟨h1, h2, by rw [h1]; rfl, by rw [h1]; decide⟩

/-! ## `backend/app/orchestration/turn_controller.py` — `TurnController`

The controller's session-local state and the operations the claims are
about, embedded as pure state transformers `TC → TC × List Ev` where `Ev`
records the callbacks emitted to the host, in order.  Wall-clock timestamps
are dropped (`duration_ms` is reported as `0`); the async sentence queue and
task handles are explicit fields.  The imported modules `state_machine.py`,
`transcript_buffer.py`, `silence_timer.py`, `conversation_history.py` and
`tts/elevenlabs.py` are not part of the sources and are modelled from the
specification where noted. -/

/-- Modelled from the spec: the five turn states of `app/state_machine.py`
(§4.1).  `StateMachine.transition` is modelled as assignment of the target
state — every transition exercised below is legal per the §4.1 table. -/
inductive TurnState where
  | idle
  | listening
  | speculative
  | committed
  | speaking
  deriving Repr, DecidableEq

/-- Modelled from the spec: `TranscriptBuffer` of
`app/orchestration/transcript_buffer.py` (§4.2): an append-only list of
final fragments, a single current partial, and a lock that freezes the value
of `get_final_text()` at the snapshot taken by `lock()`. -/
structure TranscriptBuffer where
  finals : List (String × Rat)
  interimCur : Option (String × Rat)
  locked : Bool
  snapshot : String
  deriving Repr, DecidableEq

/-- Modelled from the spec: a fresh `TranscriptBuffer`. -/
def TranscriptBuffer.empty : TranscriptBuffer :=
  { finals := [], interimCur := none, locked := false, snapshot := "" }

/-- Modelled from the spec: the finalized text, joined from the fragments. -/
def TranscriptBuffer.finalJoin (tb : TranscriptBuffer) : String :=
  String.intercalate " " (tb.finals.map (fun f => f.1))

/-- Modelled from the spec: `get_final_text()` returns the lock-time snapshot
while locked (§4.2). -/
def TranscriptBuffer.getFinalText (tb : TranscriptBuffer) : String :=
  if tb.locked then tb.snapshot else tb.finalJoin

/-- Modelled from the spec: `add_final` appends a finalized fragment. -/
def TranscriptBuffer.addFinal (tb : TranscriptBuffer) (text : String) (conf : Rat) :
    TranscriptBuffer :=
  { tb with finals := tb.finals ++ [(text, conf)] }

/-- Modelled from the spec: `add_partial` replaces the current partial. -/
def TranscriptBuffer.addInterim (tb : TranscriptBuffer) (text : String) (conf : Rat) :
    TranscriptBuffer :=
  { tb with interimCur := some (text, conf) }

/-- Modelled from the spec: `lock()` captures the snapshot. -/
def TranscriptBuffer.lock (tb : TranscriptBuffer) : TranscriptBuffer :=
  { tb with locked := true, snapshot := tb.finalJoin }

/-- Modelled from the spec: `unlock()`. -/
def TranscriptBuffer.unlock (tb : TranscriptBuffer) : TranscriptBuffer :=
  { tb with locked := false }

/-- Modelled from the spec: `clear()` resets all state. -/
def TranscriptBuffer.clear (_ : TranscriptBuffer) : TranscriptBuffer :=
  TranscriptBuffer.empty

/-- Modelled from the spec: `SilenceTimer` of
`app/orchestration/silence_timer.py` (§4.5): single-shot timer; `start()`
(re)arms, `cancel()` disarms, `adjust_debounce` moves the dwell by +100 ms
(capped at 1200) when the cancellation rate exceeds 0.30 and by −50 ms
(floored at 400) otherwise. -/
structure SilenceTimer where
  running : Bool
  debounceMs : Nat
  deriving Repr, DecidableEq

/-- Modelled from the spec: `start()` (re)arms the timer. -/
def SilenceTimer.start (t : SilenceTimer) : SilenceTimer :=
  { t with running := true }

/-- Modelled from the spec: `cancel()` disarms the timer. -/
def SilenceTimer.cancel (t : SilenceTimer) : SilenceTimer :=
  { t with running := false }

/-- Modelled from the spec: `adjust_debounce(cancellation_rate)` (§4.5). -/
def SilenceTimer.adjustDebounce (t : SilenceTimer) (rate : Rat) : SilenceTimer :=
  if rate > 3 / 10 then { t with debounceMs := min (t.debounceMs + 100) 1200 }
  else { t with debounceMs := max (t.debounceMs - 50) 400 }

/-- A callback emitted to the host, or audio forwarded to the STT adapter. -/
inductive Ev where
  | stateChange (fromSt toSt : TurnState)
  | transcriptInterim (text : String) (confidence : Rat)
  | transcriptFinal (text : String) (confidence : Rat)
  | agentAudioChunk (b64 : String) (chunkIndex : Nat) (isFinal : Bool)
  | agentTextFallback (text reason : String)
  | turnComplete (turnId userText agentText : String) (durationMs : Nat)
      (wasInterrupted : Bool)
  | error (code message : String) (recoverable : Bool)
  | sttSend (audioData : List Nat)
  deriving Repr, DecidableEq

/-- The session-local state of `TurnController` (`__init__`, lines 48-123)
that the verified operations read or write.  Task handles are modelled by
running flags, `Optional[datetime]` fields by presence flags, and
`self.deepgram` being non-`None` by `deepgramSome`. -/
structure TC where
  sessionId : String
  state : TurnState
  transcriptBuffer : TranscriptBuffer
  audioBuffer : AudioBuffer
  conversationHistory : List (String × String)
  silenceTimer : SilenceTimer
  llmCancelSet : Bool
  ttsCancelSet : Bool
  llmResponse : String
  completionTokens : Nat
  totalTurns : Nat
  cancelledTurns : Nat
  waitingForPlayback : Bool
  playbackTimeoutArmed : Bool
  turnStartSet : Bool
  ttsTaskRunning : Bool
  sentenceQueue : List (String × Bool)
  deepgramSome : Bool
  deriving Repr, DecidableEq

/-- `TurnController.__init__` (lines 48-123): IDLE, empty buffers, silence
timer at 400 ms, zeroed counters; `self.deepgram` is `None` until
`start()`. -/
def tcInit (sessionId : String) : TC :=
  { sessionId := sessionId
    state := TurnState.idle
    transcriptBuffer := TranscriptBuffer.empty
    audioBuffer := AudioBuffer.init 30 16000
    conversationHistory := []
    silenceTimer := { running := false, debounceMs := 400 }
    llmCancelSet := false
    ttsCancelSet := false
    llmResponse := ""
    completionTokens := 0
    totalTurns := 0
    cancelledTurns := 0
    waitingForPlayback := false
    playbackTimeoutArmed := false
    turnStartSet := false
    ttsTaskRunning := false
    sentenceQueue := []
    deepgramSome := false }

/-- `TurnController._transition_to_listening` (lines 877-894). -/
def transitionToListening (tc : TC) : TC × List Ev :=
  let cur := tc.state
  if cur ≠ TurnState.listening then
    let tc1 := { tc with state := TurnState.listening }
    let tc2 := if tc1.turnStartSet then tc1 else { tc1 with turnStartSet := true }
    (tc2, [Ev.stateChange cur TurnState.listening])
  else (tc, [])

/-- `TurnController._reset_to_idle` (lines 896-915): transition (with
notification) when not already IDLE, then clear the transcript and audio
buffers and the per-turn fields. -/
def resetToIdle (tc : TC) : TC × List Ev :=
  let cur := tc.state
  let r :=
    if cur ≠ TurnState.idle then
      ({ tc with state := TurnState.idle }, [Ev.stateChange cur TurnState.idle])
    else (tc, ([] : List Ev))
  ({ r.1 with
      transcriptBuffer := r.1.transcriptBuffer.clear
      audioBuffer := r.1.audioBuffer.clear
      llmResponse := ""
      turnStartSet := false }, r.2)

/-- `TurnController.handle_audio_chunk` (lines 148-200), applied to the
already-decoded bytes (`decode_audio_base64` of `audio.py`).  Note that the
pre-transition snapshot `current_state` governs both the buffer append
(line 167) and the forward to Deepgram (line 198). -/
def handleAudioChunk (tc : TC) (audioBytes : List Nat) : TC × List Ev :=
  if audioBytes.isEmpty then (tc, [])
  else
    let currentState := tc.state
    let tc1 :=
      if currentState = TurnState.listening then
        { tc with audioBuffer := tc.audioBuffer.add audioBytes }
      else tc
    let r :=
      if currentState = TurnState.idle then transitionToListening tc1
      else (tc1, ([] : List Ev))
    if r.1.deepgramSome ∧
        (currentState = TurnState.listening ∨ currentState = TurnState.speculative ∨
          currentState = TurnState.committed ∨ currentState = TurnState.speaking) then
      (r.1, r.2 ++ [Ev.sttSend audioBytes])
    else (r.1, r.2)

/-- `TurnController._handle_final_transcript` (lines 267-287): outside
LISTENING the fragment is ignored (warning only); in LISTENING it is
appended, the callback fires and the silence timer is (re)armed. -/
def handleFinalTranscript (tc : TC) (text : String) (conf : Rat) : TC × List Ev :=
  if tc.state ≠ TurnState.listening then (tc, [])
  else
    ({ tc with
        transcriptBuffer := tc.transcriptBuffer.addFinal text conf
        silenceTimer := tc.silenceTimer.start },
      [Ev.transcriptFinal text conf])

/-- `TurnController._complete_turn` (lines 704-760): append to conversation
history when either side is non-empty, build `turn_id` from the pre-increment
turn counter, increment it, emit `turn_complete` unless `notify` is false,
clear the playback-wait state, reset to IDLE, and run the adaptive-debounce
update. -/
def completeTurn (tc : TC) (wasInterrupted : Bool) (notify : Bool) : TC × List Ev :=
  let userText := tc.transcriptBuffer.getFinalText
  let agentText := tc.llmResponse
  let tc1 :=
    if userText ≠ "" ∨ agentText ≠ "" then
      { tc with conversationHistory := tc.conversationHistory ++ [(userText, agentText)] }
    else tc
  let turnId := tc1.sessionId ++ "_" ++ toString tc1.totalTurns
  let tc2 := { tc1 with totalTurns := tc1.totalTurns + 1 }
  let evs1 :=
    if notify then [Ev.turnComplete turnId userText agentText 0 wasInterrupted]
    else ([] : List Ev)
  let tc3 := { tc2 with waitingForPlayback := false, playbackTimeoutArmed := false }
  let r := resetToIdle tc3
  let tc5 :=
    if r.1.totalTurns > 0 then
      { r.1 with silenceTimer :=
          r.1.silenceTimer.adjustDebounce ((r.1.cancelledTurns : Rat) / (r.1.totalTurns : Rat)) }
    else r.1
  (tc5, evs1 ++ r.2)

/-- `TurnController._handle_interrupt` (lines 762-802): set the TTS cancel
event, cancel the TTS task, drain the sentence queue, clear the playback
wait, transition to LISTENING (the notification is hard-coded as
`SPEAKING → LISTENING`, line 799), then complete the turn as interrupted
(with `notify = True`, the default). -/
def handleInterrupt (tc : TC) : TC × List Ev :=
  let tc1 :=
    { tc with
        ttsCancelSet := true
        ttsTaskRunning := false
        sentenceQueue := []
        waitingForPlayback := false
        playbackTimeoutArmed := false }
  let tc2 := { tc1 with state := TurnState.listening }
  let r := completeTurn tc2 true true
  (r.1, Ev.stateChange TurnState.speaking TurnState.listening :: r.2)

/-- `TurnController._cancel_speculation` (lines 841-875). -/
def cancelSpeculation (tc : TC) : TC :=
  { tc with
      llmCancelSet := true
      ttsCancelSet := true
      ttsTaskRunning := false
      sentenceQueue := []
      silenceTimer := tc.silenceTimer.cancel
      transcriptBuffer := tc.transcriptBuffer.unlock
      cancelledTurns := tc.cancelledTurns + 1 }

/-- `TurnController._handle_partial_transcript` (lines 202-265): route by
state (restart the armed silence timer in LISTENING, cancel speculation in
SPECULATIVE, force COMMITTED → IDLE → LISTENING, treat SPEAKING as barge-in),
then record the partial and emit the callback. -/
def handleInterimTranscript (tc : TC) (text : String) (conf : Rat) : TC × List Ev :=
  let r :=
    match tc.state with
    | TurnState.listening =>
        if tc.silenceTimer.running then
          ({ tc with silenceTimer := tc.silenceTimer.start }, ([] : List Ev))
        else (tc, [])
    | TurnState.speculative =>
        transitionToListening (cancelSpeculation tc)
    | TurnState.committed =>
        let tc1 :=
          { tc with
              ttsCancelSet := if tc.ttsTaskRunning then true else tc.ttsCancelSet
              ttsTaskRunning := false
              sentenceQueue := [] }
        let tc2 := { tc1 with state := TurnState.idle }
        let tc3 := { tc2 with transcriptBuffer := tc2.transcriptBuffer.unlock }
        let r2 := transitionToListening tc3
        (r2.1, Ev.stateChange TurnState.committed TurnState.idle :: r2.2)
    | TurnState.speaking => handleInterrupt tc
    | TurnState.idle => (tc, [])
  ({ r.1 with transcriptBuffer := r.1.transcriptBuffer.addInterim text conf },
    r.2 ++ [Ev.transcriptInterim text conf])

/-- Result of the TTS drain loop: final controller state, emitted events,
next `chunk_index`, and whether the loop ended normally (`break` — the
post-loop code runs) as opposed to a cancellation `return`. -/
structure TTSRes where
  tc : TC
  evs : List Ev
  idx : Nat
  normal : Bool
  deriving Repr, DecidableEq

/-- The TTS cancellation event under the modelled schedule: set once
`emitted` chunks have been emitted (`none` = never set during the run). -/
def cancelSet (emitted : Nat) (cancelAfter : Option Nat) : Bool :=
  match cancelAfter with
  | none => false
  | some k => emitted ≥ k

/-- The inner `async for audio_chunk in self.elevenlabs.generate_audio(...)`
loop of `_run_tts_streaming` (lines 545-576).  Modelled from the spec: the
ElevenLabs adapter (`app/tts/elevenlabs.py` is not in the sources; §4.8) is
an ordered, cancellable stream of chunks, given here as the list of
already-base64-encoded chunk payloads for the sentence.  Per chunk: check
the cancel event (return on set); on the first chunk of the turn
(`chunk_index = 0`) transition COMMITTED → SPEAKING with notification; emit
`on_agent_audio(chunk, chunk_index, False)` and advance the index. -/
def ttsChunks : TC → List String → Nat → Option Nat → TTSRes
  | tc, [], idx, _ => { tc := tc, evs := [], idx := idx, normal := true }
  | tc, ch :: rest, idx, cancelAfter =>
      if cancelSet idx cancelAfter then
        { tc := tc, evs := [], idx := idx, normal := false }
      else
        let r1 :=
          if idx = 0 ∧ tc.state = TurnState.committed then
            ({ tc with state := TurnState.speaking },
              [Ev.stateChange TurnState.committed TurnState.speaking])
          else (tc, ([] : List Ev))
        let r2 := ttsChunks r1.1 rest (idx + 1) cancelAfter
        { tc := r2.tc
          evs := r1.2 ++ [Ev.agentAudioChunk ch idx false] ++ r2.evs
          idx := r2.idx
          normal := r2.normal }

/-- The `while not all_sentences_processed` queue-drain loop of
`_run_tts_streaming` (lines 510-580).  The queue is given as the list of
`(sentence, is_final)` entries paired with the TTS chunk payloads for that
sentence; exhausting the list models the 20 s `asyncio.wait_for` timeout
(lines 512-529): emit `tts_queue_timeout` and reset when stuck in COMMITTED,
then `break`. -/
def ttsLoop : TC → List ((String × Bool) × List String) → Nat → Option Nat → TTSRes
  | tc, [], idx, _ =>
      if tc.state = TurnState.committed then
        let r := resetToIdle tc
        { tc := r.1
          evs := Ev.error "tts_queue_timeout" "AI audio generation stalled" true :: r.2
          idx := idx
          normal := true }
      else { tc := tc, evs := [], idx := idx, normal := true }
  | tc, ((sentence, isFinal), chunks) :: rest, idx, cancelAfter =>
      if sentence = "" ∧ isFinal then
        { tc := tc, evs := [], idx := idx, normal := true }
      else if cancelSet idx cancelAfter then
        { tc := tc, evs := [], idx := idx, normal := false }
      else
        let r1 := ttsChunks tc chunks idx cancelAfter
        if !r1.normal then r1
        else if isFinal then r1
        else
          let r2 := ttsLoop r1.tc rest r1.idx cancelAfter
          { tc := r2.tc, evs := r1.evs ++ r2.evs, idx := r2.idx, normal := r2.normal }

/-- `TurnController._run_tts_streaming` (lines 486-618) on a non-throwing
TTS adapter: clear the audio buffer and the cancel event, drain the queue,
and — unless a cancellation `return` ended the generator — emit the empty
terminator frame `("", chunk_index, True)` when any chunk was sent, mark
`waiting_for_playback`, emit `turn_complete` (with the pre-increment turn id
and `was_interrupted = False`) and arm the playback safety timeout. -/
def runTTSStreaming (tc : TC) (queue : List ((String × Bool) × List String))
    (cancelAfter : Option Nat) : TC × List Ev :=
  let tc0 := { tc with audioBuffer := tc.audioBuffer.clear, ttsCancelSet := false }
  let r := ttsLoop tc0 queue 0 cancelAfter
  if !r.normal then (r.tc, r.evs)
  else
    let evs2 := if r.idx > 0 then [Ev.agentAudioChunk "" r.idx true] else ([] : List Ev)
    let tc2 := { r.tc with waitingForPlayback := true }
    let userText := tc2.transcriptBuffer.getFinalText
    let turnId := tc2.sessionId ++ "_" ++ toString tc2.totalTurns
    let evs3 := [Ev.turnComplete turnId userText tc2.llmResponse 0 false]
    let tc3 := { tc2 with playbackTimeoutArmed := true }
    (tc3, r.evs ++ evs2 ++ evs3)

/-- Python `len(sentence.split())`: the number of maximal non-whitespace
runs (`_run_llm`, line 392). -/
def wordCount (s : String) : Nat :=
  ((s.split (fun c => pySpace c)).filter (fun t => t ≠ "")).length

/-- Whether a sentence ends with `.`, `!` or `?`
(`all_sentences[-1].endswith(('.', '!', '?'))`, line 446). -/
def endsPunctStr (s : String) : Bool :=
  match s.data.getLast? with
  | some c => isPunct c
  | none => false

/-- The `async for sentence, is_final in llm_gen` loop of `_run_llm`
(lines 375-419), fed by the already-produced yield list of
`stream_sentences` (wall-clock timeout checks dropped).  Returns the state,
the events emitted, the accumulated `all_sentences`, the final
`first_sentence_started` flag and whether a cancellation `return` ended the
coroutine. -/
def llmLoop : TC → List (String × Bool) → Bool → List String →
    TC × List Ev × List String × Bool × Bool
  | tc, [], first, acc => (tc, [], acc, first, false)
  | tc, (sentence, isFinal) :: rest, first, acc =>
      if tc.llmCancelSet then
        let tc1 := { tc with cancelledTurns := tc.cancelledTurns + 1 }
        let tc2 :=
          if tc1.ttsTaskRunning then
            { tc1 with sentenceQueue := tc1.sentenceQueue ++ [("", true)] }
          else tc1
        (tc2, [], acc, first, true)
      else
        let acc1 := acc ++ [sentence]
        let r1 :=
          if !first then
            let rA :=
              if tc.state = TurnState.speculative then
                ({ tc with state := TurnState.committed },
                  [Ev.stateChange TurnState.speculative TurnState.committed])
              else (tc, ([] : List Ev))
            ({ rA.1 with ttsTaskRunning := true }, rA.2)
          else (tc, ([] : List Ev))
        let tc2 := { r1.1 with sentenceQueue := r1.1.sentenceQueue ++ [(sentence, isFinal)] }
        let r2 := llmLoop tc2 rest true acc1
        (r2.1, r1.2 ++ r2.2.1, r2.2.2.1, r2.2.2.2.1, r2.2.2.2.2)

/-- `TurnController._run_llm` (lines 318-484) up to the hand-off to the TTS
task (`await self._tts_task` runs the separately modelled
`runTTSStreaming`): abort silently to IDLE when there is no user text; on an
empty yield list emit `on_error("llm_no_response", …, recoverable=True)` and
reset to IDLE; otherwise store the joined response and the rough token
count, and enqueue the `("", True)` end marker when the last sentence lacks
closing punctuation. -/
def runLLM (tc : TC) (yields : List (String × Bool)) : TC × List Ev :=
  let userText := tc.transcriptBuffer.getFinalText
  if userText = "" then resetToIdle tc
  else
    let tc1 := { tc with llmCancelSet := false, sentenceQueue := [] }
    let r := llmLoop tc1 yields false []
    let evs := r.2.1
    let sentences := r.2.2.1
    let firstStarted := r.2.2.2.1
    let aborted := r.2.2.2.2
    if aborted then (r.1, evs)
    else if !firstStarted then
      let r2 := resetToIdle r.1
      (r2.1, evs ++ [Ev.error "llm_no_response" "AI did not generate a response" true] ++ r2.2)
    else
      let tc3 :=
        { r.1 with
            llmResponse := String.intercalate " " sentences
            completionTokens := sentences.foldl (fun n s => n + wordCount s) 0 }
      let needMarker :=
        tc3.ttsTaskRunning &&
          (match sentences.getLast? with
            | some lastS => !(endsPunctStr lastS)
            | none => false)
      let tc4 :=
        if needMarker then { tc3 with sentenceQueue := tc3.sentenceQueue ++ [("", true)] }
        else tc3
      (tc4, evs)

/-- The dictionary returned by `get_telemetry` (lines 948-968). -/
structure Telemetry where
  cancellationRate : Rat
  avgDebounceMs : Nat
  turnLatencyMs : Nat
  totalTurns : Nat
  tokensWasted : Nat
  interruptionCount : Nat
  deriving Repr, DecidableEq

/-- `TurnController.get_telemetry` (lines 948-968): pure read of the
counters; the division is guarded by `total_turns > 0`.  The controller
state is returned unchanged (the method performs no assignment). -/
def getTelemetry (tc : TC) : Telemetry × TC :=
  let rate : Rat :=
    if tc.totalTurns > 0 then (tc.cancelledTurns : Rat) / (tc.totalTurns : Rat) else 0
  ({ cancellationRate := rate
     avgDebounceMs := tc.silenceTimer.debounceMs
     turnLatencyMs := 0
     totalTurns := tc.totalTurns
     tokensWasted := if tc.llmCancelSet then tc.completionTokens else 0
     interruptionCount := tc.cancelledTurns }, tc)

/-- The `on_agent_audio` events of an emitted event list, in order. -/
def audioEvents (evs : List Ev) : List (String × Nat × Bool) :=
  evs.filterMap (fun e =>
    match e with
    | Ev.agentAudioChunk b i f => some (b, i, f)
    | _ => none)

/-- The chunk payloads the uncancelled drain loop emits for a given queue:
everything up to the end signal or the first `is_final` sentence. -/
def processedChunks : List ((String × Bool) × List String) → List String
  | [] => []
  | ((sentence, isFinal), chunks) :: rest =>
      if sentence = "" ∧ isFinal then []
      else if isFinal then chunks
      else chunks ++ processedChunks rest

theorem audioEvents_append (a b : List Ev) :
    audioEvents (a ++ b) = audioEvents a ++ audioEvents b := by
  simp [audioEvents]

/-- An uncancelled per-sentence chunk loop never aborts, advances the index
by the chunk count, and emits exactly those chunks at consecutive indices
with `is_final = false`. -/
theorem ttsChunks_none (chunks : List String) : ∀ (tc : TC) (idx : Nat),
    (ttsChunks tc chunks idx none).normal = true ∧
    (ttsChunks tc chunks idx none).idx = idx + chunks.length ∧
    audioEvents (ttsChunks tc chunks idx none).evs
      = (List.enumFrom idx chunks).map (fun p => (p.2, p.1, false)) := by
  induction chunks with
  | nil =>
    intro tc idx
    refine ⟨rfl, by simp [ttsChunks], by simp [ttsChunks, audioEvents]⟩
  | cons ch rest ih =>
    intro tc idx
    have hcs : cancelSet idx none = false := rfl
    simp only [ttsChunks, hcs, Bool.false_eq_true, if_false]
    split
    · obtain ⟨h1, h2, h3⟩ := ih { tc with state := TurnState.speaking } (idx + 1)
      refine ⟨h1, ?_, ?_⟩
      · simp only [h2, List.length_cons]
        omega
      · rw [audioEvents_append, audioEvents_append, h3]
        simp [audioEvents, List.enumFrom]
    · obtain ⟨h1, h2, h3⟩ := ih tc (idx + 1)
      refine ⟨h1, ?_, ?_⟩
      · simp only [h2, List.length_cons]
        omega
      · rw [audioEvents_append, audioEvents_append, h3]
        simp [audioEvents, List.enumFrom]

/-- An uncancelled drain loop ends normally, advances the index by the
number of processed chunks, and emits exactly those chunks at consecutive
indices with `is_final = false` (the timeout branch emits no audio). -/
theorem ttsLoop_none (queue : List ((String × Bool) × List String)) : ∀ (tc : TC) (idx : Nat),
    (ttsLoop tc queue idx none).normal = true ∧
    (ttsLoop tc queue idx none).idx = idx + (processedChunks queue).length ∧
    audioEvents (ttsLoop tc queue idx none).evs
      = (List.enumFrom idx (processedChunks queue)).map (fun p => (p.2, p.1, false)) := by
  induction queue with
  | nil =>
    intro tc idx
    simp only [ttsLoop, processedChunks]
    split
    · refine ⟨rfl, by simp, ?_⟩
      simp only [resetToIdle]
      split
      · simp [audioEvents, List.enumFrom]
      · simp [audioEvents, List.enumFrom]
    · exact ⟨rfl, by simp, by simp [audioEvents, List.enumFrom]⟩
  | cons entry rest ih =>
    intro tc idx
    obtain ⟨⟨sentence, isFinal⟩, chunks⟩ := entry
    simp only [ttsLoop, processedChunks]
    split
    · exact ⟨rfl, by simp, by simp [audioEvents, List.enumFrom]⟩
    · have hcs : cancelSet idx none = false := rfl
      simp only [hcs, Bool.false_eq_true, if_false]
      obtain ⟨hA1, hA2, hA3⟩ := ttsChunks_none chunks tc idx
      simp only [hA1, Bool.not_true, Bool.false_eq_true, if_false]
      by_cases hf : isFinal
      · simp only [hf, if_true]
        exact ⟨hA1, by rw [hA2], hA3⟩
      · simp only [hf, Bool.false_eq_true, if_false]
        obtain ⟨hB1, hB2, hB3⟩ := ih (ttsChunks tc chunks idx none).tc
          (ttsChunks tc chunks idx none).idx
        refine ⟨hB1, ?_, ?_⟩
        · rw [hB2, hA2]
          simp only [List.length_append]
          omega
        · rw [audioEvents_append, hA3, hB3, hA2, List.enumFrom_append, List.map_append]

/-- C7: for a turn whose TTS drain loop runs with the cancellation event
never set and which emits at least one audio chunk, the `chunk_index` values
passed to `on_agent_audio` are exactly `0, 1, …, N`; every chunk frame
carries `is_final = false` except the last event, which is the empty
terminator frame `("", N, true)` — the unique `is_final = true` event, last
in the turn's audio stream. -/
theorem C7_audio_chunk_indices (tc : TC) (queue : List ((String × Bool) × List String))
    (hne : audioEvents (runTTSStreaming tc queue none).2 ≠ []) :
    (audioEvents (runTTSStreaming tc queue none).2).map (fun a => a.2.1)
      = List.range (audioEvents (runTTSStreaming tc queue none).2).length ∧
    (∀ a ∈ (audioEvents (runTTSStreaming tc queue none).2).dropLast, a.2.2 = false) ∧
    (audioEvents (runTTSStreaming tc queue none).2).getLast?
      = some ("", (audioEvents (runTTSStreaming tc queue none).2).length - 1, true) := by
  have tc0eq : ∀ t : TC,
      runTTSStreaming t queue none
        = (let t0 := { t with audioBuffer := t.audioBuffer.clear, ttsCancelSet := false }
           let r := ttsLoop t0 queue 0 none
           if !r.normal then (r.tc, r.evs)
           else
             let evs2 := if r.idx > 0 then [Ev.agentAudioChunk "" r.idx true] else ([] : List Ev)
             let tc2 := { r.tc with waitingForPlayback := true }
             let userText := tc2.transcriptBuffer.getFinalText
             let turnId := tc2.sessionId ++ "_" ++ toString tc2.totalTurns
             let evs3 := [Ev.turnComplete turnId userText tc2.llmResponse 0 false]
             let tc3 := { tc2 with playbackTimeoutArmed := true }
             (tc3, r.evs ++ evs2 ++ evs3)) := fun _ => rfl
  set tcc : TC := { tc with audioBuffer := tc.audioBuffer.clear, ttsCancelSet := false }
    with htcc
  obtain ⟨hL1, hL2, hL3⟩ := ttsLoop_none queue tcc 0
  set P := processedChunks queue with hP
  have haud : audioEvents (runTTSStreaming tc queue none).2
      = (List.enumFrom 0 P).map (fun p => (p.2, p.1, false))
        ++ (if P.length > 0 then [("", P.length, true)] else []) := by
    rw [tc0eq tc]
    simp only [← htcc, hL1, Bool.not_true, Bool.false_eq_true, if_false]
    rw [audioEvents_append, audioEvents_append, hL3]
    have hidx : (ttsLoop tcc queue 0 none).idx = P.length := by
      rw [hL2]
      exact Nat.zero_add _
    rw [hidx]
    by_cases hp : P.length > 0
    · simp [hp, audioEvents]
    · simp [hp, audioEvents]
  by_cases hp : P.length > 0
  · rw [haud] at hne ⊢
    simp only [hp, if_true] at hne ⊢
    have hlen : ((List.enumFrom 0 P).map
        (fun p : Nat × String => (p.2, p.1, false)) ++ [("", P.length, true)]).length
        = P.length + 1 := by
      simp
    refine ⟨?_, ?_, ?_⟩
    · rw [List.map_append, List.map_map, hlen]
      have hcomp : ((fun a : String × Nat × Bool => a.2.1)
          ∘ (fun p : Nat × String => (p.2, p.1, false))) = Prod.fst := by
        funext p
        rfl
      rw [hcomp, List.enumFrom_map_fst, List.range_succ, List.range_eq_range']
      simp
    · intro a ha
      rw [List.dropLast_concat] at ha
      rw [List.mem_map] at ha
      obtain ⟨q, _, hq⟩ := ha
      rw [← hq]
    · rw [List.getLast?_concat, hlen]
      simp
  · exfalso
    apply hne
    rw [haud]
    have hP0 : P = [] := List.length_eq_zero.mp (by omega)
    simp [hp, hP0]

theorem C7_audio_chunk_indices_witness :
    audioEvents (runTTSStreaming (tcInit "w7") [(("Hi.", false), ["AA", "BB"]),
        (("", true), [])] none).2 ≠ [] ∧
    (audioEvents (runTTSStreaming (tcInit "w7") [(("Hi.", false), ["AA", "BB"]),
        (("", true), [])] none).2).map (fun a => a.2.1)
      = List.range (audioEvents (runTTSStreaming (tcInit "w7") [(("Hi.", false), ["AA", "BB"]),
        (("", true), [])] none).2).length :=
  ⟨by decide,
    (C7_audio_chunk_indices (tcInit "w7") [(("Hi.", false), ["AA", "BB"]), (("", true), [])]
      (by decide)).1⟩

/-- A controller in IDLE with the Deepgram client created (`start()` ran). -/
def tcIdleReady : TC := { tcInit "s" with deepgramSome := true }

/-- C1 (code evaluated at the failing input): on the first audio chunk of a
turn (state IDLE, decoded bytes `[1, 2]`, Deepgram client present) the
controller transitions IDLE → LISTENING, but the decoded bytes are neither
appended to the `AudioInputBuffer` nor forwarded via `deepgram.send_audio`:
both checks read the `current_state` snapshot taken before the transition
(lines 163, 167 and 198 of `turn_controller.py`), which is still IDLE. -/
theorem C1_first_chunk_not_forwarded :
    (handleAudioChunk tcIdleReady [1, 2]).1.state = TurnState.listening ∧
    (handleAudioChunk tcIdleReady [1, 2]).1.audioBuffer.buffer = [] ∧
    (handleAudioChunk tcIdleReady [1, 2]).2
      = [Ev.stateChange TurnState.idle TurnState.listening] := by
  refine ⟨by decide, by decide, by decide⟩

/-- Number of `turn_complete` events carrying the given turn id. -/
def countTurnComplete (turnId : String) (evs : List Ev) : Nat :=
  (evs.filter (fun e =>
    match e with
    | Ev.turnComplete tid _ _ _ _ => tid = turnId
    | _ => false)).length

/-- A controller mid-turn in COMMITTED: locked transcript "hello", LLM
response "Hi there.", TTS consumer task running. -/
def tcCommitted : TC :=
  { tcInit "s" with
      state := TurnState.committed
      transcriptBuffer := { finals := [("hello", 1)], interimCur := none,
                            locked := true, snapshot := "hello" }
      llmResponse := "Hi there."
      ttsTaskRunning := true
      deepgramSome := true
      turnStartSet := true }

/-- C2 (code evaluated at the failing sequence): turn 0's TTS streaming
completes — `_run_tts_streaming` emits `turn_complete` for turn id `s_0` and
stays in SPEAKING waiting for the playback acknowledgement — and then a
partial transcript arrives before `playback_complete`: the barge-in path
(`_handle_interrupt` → `_complete_turn(was_interrupted=True)`, which
defaults to `notify=True`) emits a second `turn_complete` with the same turn
id `s_0`. -/
theorem C2_second_turn_complete_on_barge_in :
    countTurnComplete "s_0"
        (runTTSStreaming tcCommitted [(("Hi there.", true), ["QUJD"])] none).2 = 1 ∧
    (runTTSStreaming tcCommitted [(("Hi there.", true), ["QUJD"])] none).1.state
      = TurnState.speaking ∧
    (runTTSStreaming tcCommitted [(("Hi there.", true), ["QUJD"])] none).1.waitingForPlayback
      = true ∧
    countTurnComplete "s_0"
        (handleInterimTranscript
          (runTTSStreaming tcCommitted [(("Hi there.", true), ["QUJD"])] none).1
          "wait" (9 / 10)).2 = 1 ∧
    countTurnComplete "s_0"
        ((runTTSStreaming tcCommitted [(("Hi there.", true), ["QUJD"])] none).2
          ++ (handleInterimTranscript
                (runTTSStreaming tcCommitted [(("Hi there.", true), ["QUJD"])] none).1
                "wait" (9 / 10)).2) = 2 := by
  refine ⟨by decide, by decide, by decide, by decide, by decide⟩

/-- C4: when there is user text but the LLM sentence stream yields nothing,
`_run_llm` emits `on_error("llm_no_response", …, recoverable=True)` and then
resets the state machine to IDLE (with its state-change notification when
not already IDLE), clearing the transcript and audio buffers. -/
theorem C4_llm_empty_response (tc : TC) (h : tc.transcriptBuffer.getFinalText ≠ "") :
    (runLLM tc []).1.state = TurnState.idle ∧
    (runLLM tc []).1.transcriptBuffer = TranscriptBuffer.empty ∧
    (runLLM tc []).1.audioBuffer.buffer = [] ∧
    (runLLM tc []).2
      = [Ev.error "llm_no_response" "AI did not generate a response" true]
          ++ (if tc.state ≠ TurnState.idle then [Ev.stateChange tc.state TurnState.idle]
              else []) := by
  by_cases hst : tc.state = TurnState.idle <;>
    simp [runLLM, h, llmLoop, resetToIdle, hst, TranscriptBuffer.clear, AudioBuffer.clear]

/-- A controller in SPECULATIVE with the transcript locked at "hello". -/
def tcSpeculate : TC :=
  { tcInit "s4" with
      state := TurnState.speculative
      transcriptBuffer := { finals := [("hello", 9 / 10)], interimCur := none,
                            locked := true, snapshot := "hello" } }

theorem C4_llm_empty_response_witness :
    (runLLM tcSpeculate []).1.state = TurnState.idle ∧
    (runLLM tcSpeculate []).2
      = [Ev.error "llm_no_response" "AI did not generate a response" true]
          ++ (if tcSpeculate.state ≠ TurnState.idle
              then [Ev.stateChange tcSpeculate.state TurnState.idle] else []) :=
  ⟨(C4_llm_empty_response tcSpeculate (by decide)).1,
    (C4_llm_empty_response tcSpeculate (by decide)).2.2.2⟩

/-- C8: a final transcript is processed only in LISTENING — the fragment is
appended to the transcript buffer, `on_transcript_final` is emitted and the
silence timer is (re)armed; in every other state the call changes nothing
and emits nothing (warning only). -/
theorem C8_final_transcript_routing (tc : TC) (text : String) (conf : Rat) :
    (tc.state ≠ TurnState.listening → handleFinalTranscript tc text conf = (tc, [])) ∧
    (tc.state = TurnState.listening →
      handleFinalTranscript tc text conf =
        ({ tc with
            transcriptBuffer := tc.transcriptBuffer.addFinal text conf
            silenceTimer := tc.silenceTimer.start },
          [Ev.transcriptFinal text conf])) := by
  constructor
  · intro h
    simp [handleFinalTranscript, h]
  · intro h
    simp [handleFinalTranscript, h]

/-- A controller in LISTENING. -/
def tcListen : TC := { tcInit "w8" with state := TurnState.listening }

theorem C8_final_transcript_routing_witness :
    handleFinalTranscript tcListen "hi" 1 =
      ({ tcListen with
          transcriptBuffer := tcListen.transcriptBuffer.addFinal "hi" 1
          silenceTimer := tcListen.silenceTimer.start },
        [Ev.transcriptFinal "hi" 1]) ∧
    handleFinalTranscript (tcInit "w8") "hi" 1 = (tcInit "w8", []) :=
  ⟨(C8_final_transcript_routing tcListen "hi" 1).2 rfl,
    (C8_final_transcript_routing (tcInit "w8") "hi" 1).1 (by decide)⟩

/-- C10: `get_telemetry` is a pure read — the controller state is returned
unchanged — and never divides by zero: the cancellation rate is `0` when
`total_turns = 0` and `cancelled_turns / total_turns` otherwise. -/
theorem C10_telemetry_total (tc : TC) :
    (getTelemetry tc).2 = tc ∧
    (tc.totalTurns = 0 → (getTelemetry tc).1.cancellationRate = 0) ∧
    (0 < tc.totalTurns →
      (getTelemetry tc).1.cancellationRate
        = (tc.cancelledTurns : Rat) / (tc.totalTurns : Rat)) := by
  refine ⟨rfl, ?_, ?_⟩
  · intro h
    simp [getTelemetry, h]
  · intro h
    simp [getTelemetry, h]

theorem C10_telemetry_total_witness :
    (getTelemetry (tcInit "w10")).1.cancellationRate = 0 ∧
    (getTelemetry (tcInit "w10")).2 = tcInit "w10" :=
  ⟨(C10_telemetry_total (tcInit "w10")).2.1 rfl, (C10_telemetry_total (tcInit "w10")).1⟩

end VoiceAI
